import Mathlib

/-!
# Verification of the scvi-tools pretrained-model adaptation loader

This development embeds, in Lean 4, the transfer-learning adaptation
mechanism of the scvi-tools repository:

* `ArchesMixin.load_query_data` (src/scvi/core/models/archesmixin.py):
  descriptor loading, vocabulary extension, weight-tensor reconciliation,
  device fallback, and final model flags;
* `_set_params_online_update` (same file): the parameter-freeze policy;
* `_check_nonnegative_integers` (src/scvi/data/_utils.py): count-data
  validation.

Tensors are modelled shape-and-rows: a tensor of shape `[d1, ..., dk]`
is stored as its full shape list together with `d1 * ... * d(k-1)` rows,
each a list of length `dk` along the last axis.  Only the last axis is
ever sliced or concatenated by the code under study, so this
representation is exact for it.  Values are integers; the reconciliation
logic never inspects values, only copies them, so the value type is
immaterial.
-/

namespace Scvi

/-- A (torch) tensor: full `shape` plus the data grouped into rows along
the last axis (`rows.length` should be the product of the leading
dimensions, each row of length `shape.getLastD 0`). -/
structure Tensor where
  shape : List Nat
  rows : List (List Int)
deriving DecidableEq, Repr

/-- The width of the last axis (`t.size()[-1]` in torch). -/
def Tensor.lastDim (t : Tensor) : Nat := t.shape.getLastD 0

/-- Well-formedness: at least one axis, the number of rows is the product
of the leading dimensions, and every row has the last axis's width. -/
def Tensor.wf (t : Tensor) : Prop :=
  t.shape ≠ [] ∧ t.rows.length = (t.shape.dropLast).prod ∧
    ∀ r ∈ t.rows, r.length = t.lastDim

instance (t : Tensor) : Decidable t.wf := by
  unfold Tensor.wf; infer_instance

/-- Python slicing `t[..., s:]` along the last axis: a negative start is
counted from the end (clamped at 0), a nonnegative start is clamped at
the width. -/
def Tensor.sliceLastFrom (t : Tensor) (s : Int) : Tensor :=
  let start : Nat := if s < 0 then ((t.lastDim : Int) + s).toNat else min s.toNat t.lastDim
  { shape := t.shape.dropLast ++ [t.lastDim - start],
    rows := t.rows.map (List.drop start) }

/-- Torch concatenation `torch.cat([a, b], dim=-1)`: succeeds only when both tensors have at
least one axis and agree on every leading dimension (torch raises a
`RuntimeError` otherwise); rows are concatenated pairwise. -/
def Tensor.cat (a b : Tensor) : Option Tensor :=
  if a.shape ≠ [] ∧ b.shape ≠ [] ∧ a.shape.dropLast = b.shape.dropLast then
    some { shape := a.shape.dropLast ++ [a.lastDim + b.lastDim],
           rows := (a.rows.zip b.rows).map (fun p => p.1 ++ p.2) }
  else none

/-- One step of the reconciliation loop of `load_query_data`
(archesmixin.py lines 80-88): a saved tensor whose size equals the fresh
model's is kept verbatim; otherwise
`dim_diff = new.size()[-1] - load.size()[-1]` and the result is
`torch.cat([load_ten, new_ten[..., -dim_diff:]], dim=-1)`.  `none`
models a raised `RuntimeError`. -/
def reconcileTensor (loadTen newTen : Tensor) : Option Tensor :=
  if loadTen.shape = newTen.shape then some loadTen
  else
    let dimDiff : Int := (newTen.lastDim : Int) - (loadTen.lastDim : Int)
    loadTen.cat (newTen.sliceLastFrom (-dimDiff))

/-- The reconciliation loop over the whole saved state dict: each saved
key is looked up in the fresh model's state dict (`new_state_dict[key]`,
`none` modelling the `KeyError`) and reconciled; the saved dict with the
fixed tensors is returned in order. -/
def reconcileStateDict (loadSD newSD : List (String × Tensor)) :
    Option (List (String × Tensor)) :=
  match loadSD with
  | [] => some []
  | (k, t) :: rest =>
    match newSD.lookup k with
    | none => none
    | some nt =>
      match reconcileTensor t nt with
      | none => none
      | some ft => (reconcileStateDict rest newSD).map (fun r => (k, ft) :: r)

/-- Strict loading `model.load_state_dict(given)` with torch's default `strict=True`:
every model parameter must be present in `given` with exactly its shape,
and `given` must contain no unexpected key. -/
def strictLoadCheck (modelSD given : List (String × Tensor)) : Bool :=
  modelSD.all (fun kt =>
      match given.lookup kt.1 with
      | some t => t.shape == kt.2.shape
      | none => false) &&
    given.all (fun kt => (modelSD.lookup kt.1).isSome)

/-! ## Vocabulary extension (setup descriptor transfer) -/

/-- A setup descriptor: each categorical field name mapped to its ordered
list of observed categories. -/
abbrev SetupDict := List (String × List String)

/-- Modelled from the spec: the category-list extension performed by
`transfer_anndata_setup(..., extend_categories=True)`; the implementation
(src/scvi/data/_anndata.py) is not part of the source tree, only its
call sites and import are.  Per the spec, extending "is a set-union of
the new dataset's observed categories into the existing ordered category
list, preserving original ordering and appending unseen categories at
the end" in first-seen order. -/
def extendCategories (orig observed : List String) : List String :=
  observed.foldl (fun acc c => if c ∈ acc then acc else acc ++ [c]) orig

/-- Modelled from the spec: `transfer_anndata_setup` with
`extend_categories=True` extends every categorical field of the
descriptor with the categories observed in the query dataset
(`obs field` lists the values of `field` observed in the query data, in
order of appearance). -/
def transferAnndataSetup (setup : SetupDict) (obs : String → List String) : SetupDict :=
  setup.map (fun fc => (fc.1, extendCategories fc.2 (obs fc.1)))

/-- The spec-side description of the appended block: the categories of
the query data that are new relative to `orig`, kept in first-seen
order.  (Used to compare `extendCategories` with the spec's words.) -/
def firstSeenNew (orig observed : List String) : List String :=
  observed.foldl (fun acc c => if c ∈ orig ∨ c ∈ acc then acc else acc ++ [c]) []

/-! ## The freeze policy (`_set_params_online_update`) -/

/-- The three boolean switches of `_set_params_online_update`. -/
structure Flags where
  freezeBatchnorm : Bool
  freezeDropout : Bool
  freezeExpression : Bool
deriving DecidableEq, Repr

/-- The set `mod_no_grad` (archesmixin.py line 108). -/
def modNoGrad : List String := ["encoder_z2_z1", "decoder_z1_z2"]

/-- The set `mod_no_hooks_yes_grad` (line 109). -/
def modNoHooksYesGrad : List String := ["l_encoder"]

/-- The set `parameters_yes_grad` (line 110). -/
def parametersYesGrad : List String := ["background_pro_alpha", "background_pro_log_beta"]

/-- Python's substring test `pat in s`, on the character lists. -/
def strContainsSub (s pat : String) : Bool :=
  s.toList.tails.any (fun t => pat.toList.isPrefixOf t)

/-- The predicate `no_hook_cond` (lines 112-113). -/
def noHookCond (freezeExpression : Bool) (key : String) : Bool :=
  !freezeExpression && strContainsSub key "encoder"

/-- Python's `key.split(".")[0]`: the characters before the first dot
(the whole key when it has no dot). -/
def rootName (key : String) : String :=
  String.mk (key.toList.takeWhile (fun c => c ≠ '.'))

/-- The classifier `requires_grad` (lines 115-125): the per-parameter-name freeze
decision. -/
def requiresGradKey (key : String) : Bool :=
  let modName := rootName key
  let one := strContainsSub key "fc_layers" && strContainsSub key ".0." &&
    !(modName ∈ modNoGrad)
  let two := modName ∈ modNoHooksYesGrad
  let three := parametersYesGrad.any (fun p => strContainsSub key p)
  one || two || three

/-- The state of a named submodule, restricted to the attributes
`_set_params_online_update` touches: a dropout layer's rate `p`, a
`BatchNorm1d` layer's `affine` and `track_running_stats` switches, an
`FCLayers` module's installed-hook setting, and anything else opaque. -/
inductive SMod where
  | dropout (p : Rat)
  | batchNorm1d (affine trackRunningStats : Bool)
  | fcLayers (hookFirstLayer : Bool)
  | plain
deriving DecidableEq, Repr

/-- The module loop of `_set_params_online_update` (lines 127-140) on one
named module: modules rooted in `mod_no_hooks_yes_grad` are skipped;
`FCLayers` get `set_online_update_hooks(hook_first_layer)`; dropout rates
are zeroed under `freeze_dropout`; batchnorm switches are cleared under
`freeze_batchnorm`. -/
def updateModule (fl : Flags) (key : String) (m : SMod) : SMod :=
  if rootName key ∈ modNoHooksYesGrad then m
  else
    match m with
    | .fcLayers _ => .fcLayers (!(noHookCond fl.freezeExpression key))
    | .dropout p => .dropout (if fl.freezeDropout then 0 else p)
    | .batchNorm1d a t =>
      .batchNorm1d (if fl.freezeBatchnorm then false else a)
        (if fl.freezeBatchnorm then false else t)
    | .plain => .plain

/-- The function `_set_params_online_update` (lines 104-146) over a model given as its
named modules and named parameters (a parameter's `Bool` is its
`requires_grad` attribute): the module loop followed by the parameter
loop setting `requires_grad` from the `requires_grad` classifier. -/
def setParamsOnlineUpdate (fl : Flags) (mods : List (String × SMod))
    (params : List (String × Bool)) :
    List (String × SMod) × List (String × Bool) :=
  (mods.map (fun km => (km.1, updateModule fl km.1 km.2)),
   params.map (fun kp => (kp.1, requiresGradKey kp.1)))

/-! ## `ArchesMixin.load_query_data` -/

/-- The contents of `attr.pkl` (the saved attribute dictionary),
restricted to the keys `load_query_data` reads: the saved setup
descriptor `scvi_setup_dict_`, whether the key `init_params_` is present
(its value only feeds the class constructor, abstracted into
`LoadEnv.mkModel`), and the saved `is_trained_` flag restored onto the
model by the `setattr` loop. -/
structure AttrDict where
  scviSetupDict : SetupDict
  initParamsPresent : Bool
  isTrainedSaved : Bool

/-- A freshly constructed model `cls(adata, **non_kwargs, **kwargs)`,
viewed through the three interfaces `load_query_data` uses: its state
dict, its named modules and its named parameters
(`requires_grad` flag each). -/
structure FreshModel where
  stateDict : List (String × Tensor)
  modules : List (String × SMod)
  params : List (String × Bool)

/-- The environment of one `load_query_data` call: the saved attribute
dictionary, the query dataset's observed categories per field, the saved
weights (`model_params.pt`), the model-class constructor as a function
of the (extended) setup descriptor, and whether
`torch.cuda.is_available()`. -/
structure LoadEnv where
  attrDict : AttrDict
  adataCategories : String → List String
  savedStateDict : List (String × Tensor)
  mkModel : SetupDict → FreshModel
  cudaAvailable : Bool

/-- The model returned by `load_query_data`: its setup descriptor
(`scvi_setup_dict_`), loaded state dict, modules and parameters after
`_set_params_online_update`, the recorded `use_cuda` attribute, whether
its weights live on the CUDA device, the final `is_trained_` flag and
whether `model.model.eval()` was applied. -/
structure SModel where
  setupDict : SetupDict
  stateDict : List (String × Tensor)
  modules : List (String × SMod)
  params : List (String × Bool)
  useCuda : Bool
  deviceCuda : Bool
  isTrained : Bool
  evalMode : Bool

/-- The observable I/O events of `load_query_data`: unpickling
`attr.pkl` and `torch.load`-ing `model_params.pt`. -/
inductive Ev where
  | readAttrPkl
  | torchLoadModelParams
deriving DecidableEq, Repr

/-- The method `ArchesMixin.load_query_data` (archesmixin.py lines 16-101), as a
pure function from its environment to the emitted I/O-event trace and
either an error (a raised Python exception, with its message when the
code raises one itself) or the returned model.  Step by step as in the
source: unpickle `attr.pkl`; transfer the setup onto the query data with
`extend_categories=True`; fail if `init_params_` is absent; construct
the fresh model from the extended setup; decide
`use_cuda = use_cuda and torch.cuda.is_available()`; `torch.load` the
saved state dict; reconcile every saved tensor against the fresh state
dict; `load_state_dict` (strict); `eval()`; apply
`_set_params_online_update`; finally set `is_trained_ = False`. -/
def loadQueryData (env : LoadEnv) (useCuda freezeDropout freezeBatchnorm
    freezeExpression : Bool) : List Ev × Except String SModel :=
  let attrDict := env.attrDict
  let extended := transferAnndataSetup attrDict.scviSetupDict env.adataCategories
  if attrDict.initParamsPresent = false then
    ([Ev.readAttrPkl],
     Except.error "No init_params_ were saved by the model. Check out the developers guide if creating custom models.")
  else
    let fresh := env.mkModel extended
    let cuda := useCuda && env.cudaAvailable
    match reconcileStateDict env.savedStateDict fresh.stateDict with
    | none =>
      ([Ev.readAttrPkl, Ev.torchLoadModelParams],
       Except.error "tensor shape mismatch during reconciliation")
    | some fixedSD =>
      if strictLoadCheck fresh.stateDict fixedSD then
        let upd := setParamsOnlineUpdate
          ⟨freezeBatchnorm, freezeDropout, freezeExpression⟩ fresh.modules fresh.params
        ([Ev.readAttrPkl, Ev.torchLoadModelParams],
         Except.ok
           { setupDict := extended
             stateDict := fixedSD
             modules := upd.1
             params := upd.2
             useCuda := cuda
             deviceCuda := cuda
             isTrained := false
             evalMode := true })
      else
        ([Ev.readAttrPkl, Ev.torchLoadModelParams],
         Except.error "load_state_dict size mismatch")

/-! ## `_check_nonnegative_integers` (src/scvi/data/_utils.py) -/

/-- The array extracted by `_check_nonnegative_integers` before slicing:
a one-axis array (a 1-D ndarray, or the `.data` array of stored nonzero
values of a sparse matrix) or a two-axis array (a 2-D ndarray, or a
DataFrame after `.to_numpy()`). -/
inductive NDData where
  | oneD (xs : List ℚ)
  | twoD (rows : List (List ℚ))
deriving DecidableEq, Repr

/-- numpy slicing `data[:10]`: the first 10 elements along the leading
axis — entries of a one-axis array, rows of a two-axis array. -/
def ndTake10 : NDData → NDData
  | .oneD xs => .oneD (xs.take 10)
  | .twoD rows => .twoD (rows.take 10)

/-- Row-major flattening `data.flat`: all entries in row-major order. -/
def ndFlat : NDData → List ℚ
  | .oneD xs => xs
  | .twoD rows => rows.flatten

/-- The check `_check_is_counts` (lines 160-165): every flat entry must be
nonnegative and integral (`d < 0 or d % 1 != 0` rejects; for a rational
`d`, `d % 1 ≠ 0` is exactly `d.den ≠ 1`). -/
def checkIsCounts (data : NDData) : Bool :=
  (ndFlat data).all (fun d => !(d < 0) && d.den == 1)

/-- The validator `_check_nonnegative_integers` (lines 143-157): slice `data[:10]`
along the leading axis, then run `_check_is_counts` on it. -/
def checkNonnegativeIntegers (data : NDData) : Bool :=
  checkIsCounts (ndTake10 data)

/-! ## Lemmas on vocabulary extension -/

theorem extendCategories_cons (orig : List String) (c : String) (rest : List String) :
    extendCategories orig (c :: rest) =
      extendCategories (if c ∈ orig then orig else orig ++ [c]) rest := rfl

theorem mem_extendCategories_of_mem_left {x : String} (orig obs : List String)
    (h : x ∈ orig) : x ∈ extendCategories orig obs := by
  induction obs generalizing orig with
  | nil => exact h
  | cons c rest ih =>
    rw [extendCategories_cons]
    apply ih
    split
    · exact h
    · exact List.mem_append_left _ h

theorem mem_extendCategories_of_mem_right {x : String} (orig obs : List String)
    (h : x ∈ obs) : x ∈ extendCategories orig obs := by
  induction obs generalizing orig with
  | nil => cases h
  | cons c rest ih =>
    rw [extendCategories_cons]
    rcases List.mem_cons.mp h with hx | hx
    · subst hx
      apply mem_extendCategories_of_mem_left
      split
      · assumption
      · exact List.mem_append_right _ (List.mem_singleton_self x)
    · exact ih _ hx

theorem extendCategories_eq_of_subset (orig obs : List String)
    (h : ∀ c ∈ obs, c ∈ orig) : extendCategories orig obs = orig := by
  induction obs with
  | nil => rfl
  | cons c rest ih =>
    rw [extendCategories_cons, if_pos (h c (List.mem_cons_self c rest))]
    exact ih fun c hc => h c (List.mem_cons_of_mem _ hc)

theorem extendCategories_append_aux (obs : List String) :
    ∀ orig extra : List String,
      extendCategories (orig ++ extra) obs =
        orig ++ obs.foldl
          (fun acc c => if c ∈ orig ∨ c ∈ acc then acc else acc ++ [c]) extra := by
  induction obs with
  | nil => intro orig extra; rfl
  | cons c rest ih =>
    intro orig extra
    rw [extendCategories_cons]
    by_cases h : c ∈ orig ∨ c ∈ extra
    · rw [if_pos (List.mem_append.mpr h)]
      have : (if c ∈ orig ∨ c ∈ extra then extra else extra ++ [c]) = extra := if_pos h
      simp only [List.foldl_cons, this]
      exact ih orig extra
    · rw [if_neg (fun hc => h (List.mem_append.mp hc)), List.append_assoc]
      have : (if c ∈ orig ∨ c ∈ extra then extra else extra ++ [c]) = extra ++ [c] :=
        if_neg h
      simp only [List.foldl_cons, this]
      exact ih orig (extra ++ [c])

/-- The extension `extendCategories` matches the spec's description: original list
followed by the categories new to it, in first-seen order. -/
theorem extendCategories_eq_append (orig obs : List String) :
    extendCategories orig obs = orig ++ firstSeenNew orig obs := by
  have h := extendCategories_append_aux obs orig []
  rw [List.append_nil] at h
  exact h

theorem extendCategories_idem (orig obs : List String) :
    extendCategories (extendCategories orig obs) obs = extendCategories orig obs :=
  extendCategories_eq_of_subset _ _
    (fun _ hc => mem_extendCategories_of_mem_right _ _ hc)

/-- A small concrete descriptor and query-data category assignment, used
to instantiate theorems with hypotheses. -/
def demoSetup : SetupDict := [("batch", ["a", "b"])]

/-- Concrete observed categories of the query dataset: a superset of
`demoSetup`'s with one new category. -/
def demoObs : String → List String := fun _ => ["a", "b", "c"]

/-- C5: vocabulary extension is monotone, order-preserving and
idempotent: for a descriptor whose categorical values all occur in the
query data, every extended field list is the original ordered list
followed by the query data's new categories in first-seen order,
existing category-to-index assignments are unchanged, and extending a
second time with the same data changes nothing. -/
theorem c5_vocabulary_extension (setup : SetupDict) (obs : String → List String)
    (_hsup : ∀ fc ∈ setup, ∀ c ∈ fc.2, c ∈ obs fc.1) :
    transferAnndataSetup setup obs
        = setup.map (fun fc => (fc.1, fc.2 ++ firstSeenNew fc.2 (obs fc.1))) ∧
    (∀ fc ∈ setup, ∀ c ∈ fc.2,
        (extendCategories fc.2 (obs fc.1)).indexOf c = fc.2.indexOf c) ∧
    transferAnndataSetup (transferAnndataSetup setup obs) obs
        = transferAnndataSetup setup obs := by
  refine ⟨?_, ?_, ?_⟩
  · unfold transferAnndataSetup
    exact List.map_congr_left (fun fc _ => by rw [extendCategories_eq_append])
  · intro fc _ c hc
    rw [extendCategories_eq_append]
    exact List.indexOf_append_of_mem hc
  · unfold transferAnndataSetup
    rw [List.map_map]
    exact List.map_congr_left (fun fc _ => by
      simp only [Function.comp_apply, extendCategories_idem])

/-- Instantiation of `c5_vocabulary_extension` on concrete data. -/
theorem c5_vocabulary_extension_witness :
    (∀ fc ∈ demoSetup, ∀ c ∈ fc.2, c ∈ demoObs fc.1) ∧
    (transferAnndataSetup demoSetup demoObs
        = demoSetup.map (fun fc => (fc.1, fc.2 ++ firstSeenNew fc.2 (demoObs fc.1))) ∧
     (∀ fc ∈ demoSetup, ∀ c ∈ fc.2,
        (extendCategories fc.2 (demoObs fc.1)).indexOf c = fc.2.indexOf c) ∧
     transferAnndataSetup (transferAnndataSetup demoSetup demoObs) demoObs
        = transferAnndataSetup demoSetup demoObs) :=
  ⟨by decide, c5_vocabulary_extension demoSetup demoObs (by decide)⟩

/-! ## Lemmas on tensors and weight reconciliation -/

theorem Tensor.shape_decomp (t : Tensor) (h : t.shape ≠ []) :
    t.shape = t.shape.dropLast ++ [t.lastDim] := by
  have hd := List.dropLast_append_getLast h
  rw [Tensor.lastDim, List.getLastD_eq_getLast?, List.getLast?_eq_getLast _ h]
  exact hd.symm

theorem zip_map_append (l n : List (List Int)) (g : List Int → List Int) :
    (l.zip (n.map g)).map (fun p => p.1 ++ p.2) =
      List.zipWith (fun a b => a ++ g b) l n := by
  induction l generalizing n with
  | nil => simp
  | cons a l ih =>
    cases n with
    | nil => simp
    | cons b n => simp [ih]

/-- C1: weight reconciliation pads grown tensors correctly.  When shapes
match, the saved tensor is copied verbatim; when the fresh model's
tensor has the same leading dimensions and a last dimension larger by
`d > 0`, reconciliation succeeds, produces a tensor of the required
shape, and every row of the result is the saved row followed by the
fresh row's entries beyond the old width — so its first `old_width`
columns equal the saved tensor exactly and its last `d` columns equal
the freshly initialized tensor's corresponding columns. -/
theorem c1_weight_padding (loadTen newTen : Tensor) (d : Nat)
    (hL : loadTen.wf) (hN : newTen.wf) (hd : 0 < d)
    (hshape : newTen.shape = loadTen.shape.dropLast ++ [loadTen.lastDim + d]) :
    (∀ a b : Tensor, a.shape = b.shape → reconcileTensor a b = some a) ∧
    ∃ fixed, reconcileTensor loadTen newTen = some fixed ∧
      fixed.shape = newTen.shape ∧
      fixed.rows = List.zipWith (fun a b => a ++ b.drop loadTen.lastDim)
        loadTen.rows newTen.rows ∧
      fixed.rows.length = loadTen.rows.length ∧
      ∀ (i : Nat) (hif : i < fixed.rows.length) (hil : i < loadTen.rows.length)
        (hin : i < newTen.rows.length),
        (fixed.rows[i]).take loadTen.lastDim = loadTen.rows[i] ∧
        (fixed.rows[i]).drop loadTen.lastDim = (newTen.rows[i]).drop loadTen.lastDim := by
  obtain ⟨hLne, hLlen, hLrow⟩ := hL
  obtain ⟨hNne, hNlen, hNrow⟩ := hN
  have hnewLast : newTen.lastDim = loadTen.lastDim + d := by
    rw [Tensor.lastDim, hshape]
    exact List.getLastD_concat _ _ _
  have hnewDrop : newTen.shape.dropLast = loadTen.shape.dropLast := by
    rw [hshape]
    exact List.dropLast_concat ..
  refine ⟨fun a b h => by simp [reconcileTensor, h], ?_⟩
  have hne : ¬(loadTen.shape = newTen.shape) := by
    intro he
    have : loadTen.lastDim = newTen.lastDim := by
      rw [Tensor.lastDim, Tensor.lastDim, he]
    omega
  rw [reconcileTensor, if_neg hne]
  have hdiff : -((newTen.lastDim : Int) - (loadTen.lastDim : Int)) = -(d : Int) := by
    rw [hnewLast]; push_cast; ring
  simp only [hdiff]
  have hstart :
      (if (-(d : Int)) < 0 then ((newTen.lastDim : Int) + (-(d : Int))).toNat
        else min (-(d : Int)).toNat newTen.lastDim) = loadTen.lastDim := by
    rw [if_pos (by omega : (-(d : Int)) < 0)]
    omega
  rw [Tensor.sliceLastFrom]
  simp only [hstart]
  have hsliceShape : newTen.shape.dropLast ++ [newTen.lastDim - loadTen.lastDim]
      = loadTen.shape.dropLast ++ [d] := by
    rw [hnewDrop, hnewLast]
    congr 2
    omega
  rw [hsliceShape, Tensor.cat]
  rw [if_pos ⟨hLne, by simp, by rw [List.dropLast_concat]⟩]
  refine ⟨_, rfl, ?_, ?_, ?_, ?_⟩
  · show loadTen.shape.dropLast ++
        [loadTen.lastDim + Tensor.lastDim ⟨loadTen.shape.dropLast ++ [d], _⟩] = newTen.shape
    rw [Tensor.lastDim]
    show loadTen.shape.dropLast ++
        [loadTen.lastDim + (loadTen.shape.dropLast ++ [d]).getLastD 0] = newTen.shape
    rw [List.getLastD_concat, hshape]
  · exact zip_map_append _ _ _
  · show ((loadTen.rows.zip (newTen.rows.map (List.drop loadTen.lastDim))).map
        (fun p => p.1 ++ p.2)).length = loadTen.rows.length
    rw [zip_map_append, List.length_zipWith, hLlen, hNlen, hnewDrop, min_self]
  · intro i hif hil hin
    have hrow : ((loadTen.rows.zip (newTen.rows.map (List.drop loadTen.lastDim))).map
          (fun p => p.1 ++ p.2))[i] =
        loadTen.rows[i] ++ (newTen.rows[i]).drop loadTen.lastDim := by
      rw [List.getElem_of_eq (zip_map_append _ _ _), List.getElem_zipWith]
    rw [hrow]
    have hlen : (loadTen.rows[i]).length = loadTen.lastDim :=
      hLrow _ (List.getElem_mem hil)
    exact ⟨List.take_left' hlen, List.drop_left' hlen⟩

/-- A saved 2-by-2 tensor. -/
def demoLoadTen : Tensor := ⟨[2, 2], [[1, 2], [3, 4]]⟩

/-- A freshly initialized 2-by-3 tensor (last dimension grew by 1). -/
def demoNewTen : Tensor := ⟨[2, 3], [[5, 6, 7], [8, 9, 10]]⟩

/-- Instantiation of `c1_weight_padding` on concrete tensors. -/
theorem c1_weight_padding_witness :
    demoLoadTen.wf ∧ demoNewTen.wf ∧ 0 < 1 ∧
    demoNewTen.shape = demoLoadTen.shape.dropLast ++ [demoLoadTen.lastDim + 1] ∧
    ((∀ a b : Tensor, a.shape = b.shape → reconcileTensor a b = some a) ∧
     ∃ fixed, reconcileTensor demoLoadTen demoNewTen = some fixed ∧
       fixed.shape = demoNewTen.shape ∧
       fixed.rows = List.zipWith (fun a b => a ++ b.drop demoLoadTen.lastDim)
         demoLoadTen.rows demoNewTen.rows ∧
       fixed.rows.length = demoLoadTen.rows.length ∧
       ∀ (i : Nat) (hif : i < fixed.rows.length)
         (hil : i < demoLoadTen.rows.length) (hin : i < demoNewTen.rows.length),
         (fixed.rows[i]).take demoLoadTen.lastDim = demoLoadTen.rows[i] ∧
         (fixed.rows[i]).drop demoLoadTen.lastDim
           = (demoNewTen.rows[i]).drop demoLoadTen.lastDim) :=
  ⟨by decide, by decide, by decide, by decide,
   c1_weight_padding demoLoadTen demoNewTen 1 (by decide) (by decide)
     (by decide) (by decide)⟩

/-- Any reconciliation step outside the trailing-growth case either
raises (`none`) or produces a tensor whose shape still differs from the
fresh model's requirement, so the strict `load_state_dict` rejects it. -/
theorem reconcileTensor_mismatch (loadTen newTen : Tensor)
    (hL : loadTen.wf) (hN : newTen.wf)
    (hne : loadTen.shape ≠ newTen.shape)
    (hnogrow : ∀ d : Nat, 0 < d →
      newTen.shape ≠ loadTen.shape.dropLast ++ [loadTen.lastDim + d]) :
    reconcileTensor loadTen newTen = none ∨
      ∃ t, reconcileTensor loadTen newTen = some t ∧ t.shape ≠ newTen.shape := by
  obtain ⟨hLne, -, -⟩ := hL
  obtain ⟨hNne, -, -⟩ := hN
  have hLdec := Tensor.shape_decomp loadTen hLne
  have hNdec := Tensor.shape_decomp newTen hNne
  rw [reconcileTensor, if_neg hne]
  by_cases hdl : loadTen.shape.dropLast = newTen.shape.dropLast
  · -- common leading dimensions; the last dimension must have shrunk
    have hw : loadTen.lastDim ≠ newTen.lastDim := by
      intro he
      exact hne (by rw [hLdec, hNdec, hdl, he])
    have hlt : newTen.lastDim < loadTen.lastDim := by
      rcases Nat.lt_or_ge newTen.lastDim loadTen.lastDim with h | h
      · exact h
      · exfalso
        have hgt : loadTen.lastDim < newTen.lastDim := Nat.lt_of_le_of_ne h hw
        refine hnogrow (newTen.lastDim - loadTen.lastDim) (by omega) ?_
        have h2 : loadTen.lastDim + (newTen.lastDim - loadTen.lastDim)
            = newTen.lastDim := by omega
        rw [h2, hdl]
        exact hNdec
    right
    have hdiff : -((newTen.lastDim : Int) - (loadTen.lastDim : Int))
        = ((loadTen.lastDim - newTen.lastDim : Nat) : Int) := by omega
    simp only [hdiff]
    rw [Tensor.sliceLastFrom]
    have hstart :
        (if ((loadTen.lastDim - newTen.lastDim : Nat) : Int) < 0 then
            ((newTen.lastDim : Int) + ((loadTen.lastDim - newTen.lastDim : Nat) : Int)).toNat
          else min ((loadTen.lastDim - newTen.lastDim : Nat) : Int).toNat newTen.lastDim)
        = min (loadTen.lastDim - newTen.lastDim) newTen.lastDim := by
      rw [if_neg (by omega)]
      omega
    simp only [hstart]
    rw [Tensor.cat, if_pos ⟨hLne, by simp, by rw [List.dropLast_concat, hdl]⟩]
    refine ⟨_, rfl, ?_⟩
    show loadTen.shape.dropLast ++
        [loadTen.lastDim + Tensor.lastDim
          ⟨newTen.shape.dropLast ++
            [newTen.lastDim - min (loadTen.lastDim - newTen.lastDim) newTen.lastDim], _⟩]
        ≠ newTen.shape
    rw [Tensor.lastDim]
    show loadTen.shape.dropLast ++
        [loadTen.lastDim + (newTen.shape.dropLast ++
          [newTen.lastDim - min (loadTen.lastDim - newTen.lastDim) newTen.lastDim]).getLastD 0]
        ≠ newTen.shape
    rw [List.getLastD_concat, hdl]
    intro he
    have hxy := congrArg (fun l => l.getLastD 0) he
    simp only [List.getLastD_concat] at hxy
    have hxy2 : loadTen.lastDim +
        (newTen.lastDim - min (loadTen.lastDim - newTen.lastDim) newTen.lastDim)
        = newTen.lastDim := hxy
    omega
  · -- leading dimensions differ: `torch.cat` raises
    left
    simp only [Tensor.sliceLastFrom, Tensor.cat]
    rw [if_neg]
    rintro ⟨-, -, hc⟩
    rw [List.dropLast_concat] at hc
    exact hdl hc

theorem reconcileStateDict_single (k : String) (lt nt : Tensor) :
    reconcileStateDict [(k, lt)] [(k, nt)] =
      (reconcileTensor lt nt).map (fun t => [(k, t)]) := by
  rw [reconcileStateDict]
  have hlook : (([(k, nt)] : List (String × Tensor)).lookup k) = some nt := by
    simp [List.lookup]
  rw [hlook]
  show (match reconcileTensor lt nt with
      | none => none
      | some ft => Option.map (fun r => (k, ft) :: r) (reconcileStateDict [] [(k, nt)]))
    = (reconcileTensor lt nt).map (fun t => [(k, t)])
  cases reconcileTensor lt nt <;> rfl

/-- C2: during weight reconciliation, any shape mismatch other than
trailing-last-dimension growth aborts model construction: with such a
saved/fresh tensor pair in the state dicts, `load_query_data` raises
(either `torch.cat` fails or the strict `load_state_dict` rejects the
mis-sized tensor) and returns no model. -/
theorem c2_shape_mismatch_fatal (loadTen newTen : Tensor)
    (hL : loadTen.wf) (hN : newTen.wf)
    (hne : loadTen.shape ≠ newTen.shape)
    (hnogrow : ∀ d : Nat, 0 < d →
      newTen.shape ≠ loadTen.shape.dropLast ++ [loadTen.lastDim + d])
    (env : LoadEnv) (k : String) (u fd fb fe : Bool)
    (hsd : env.savedStateDict = [(k, loadTen)])
    (hfresh : (env.mkModel (transferAnndataSetup env.attrDict.scviSetupDict
        env.adataCategories)).stateDict = [(k, newTen)]) :
    ∃ msg, (loadQueryData env u fd fb fe).2 = Except.error msg := by
  have hcore := reconcileTensor_mismatch loadTen newTen hL hN hne hnogrow
  simp only [loadQueryData]
  by_cases hip : env.attrDict.initParamsPresent = false
  · rw [if_pos hip]
    exact ⟨_, rfl⟩
  · rw [if_neg hip, hsd, hfresh, reconcileStateDict_single]
    rcases hcore with hnone | ⟨t, ht, htne⟩
    · rw [hnone]
      exact ⟨_, rfl⟩
    · rw [ht]
      have hb : (t.shape == newTen.shape) = false := by
        simp only [beq_eq_false_iff_ne, ne_eq]
        exact htne
      have hcheck : strictLoadCheck [(k, newTen)] [(k, t)] = false := by
        simp [strictLoadCheck, List.lookup, hb]
      refine ⟨"load_state_dict size mismatch", ?_⟩
      simp [hcheck]

/-- A fresh tensor whose last dimension shrank: a mismatch outside the
trailing-growth case. -/
def demoBadNewTen : Tensor := ⟨[2, 1], [[5], [6]]⟩

/-- An environment whose fresh model requires a smaller tensor than the
saved one. -/
def demoEnvMismatch : LoadEnv :=
  { attrDict := ⟨demoSetup, true, true⟩
    adataCategories := demoObs
    savedStateDict := [("w", demoLoadTen)]
    mkModel := fun _ => ⟨[("w", demoBadNewTen)], [], []⟩
    cudaAvailable := false }

/-- Instantiation of `c2_shape_mismatch_fatal` on concrete data. -/
theorem c2_shape_mismatch_fatal_witness :
    demoLoadTen.wf ∧ demoBadNewTen.wf ∧
    demoLoadTen.shape ≠ demoBadNewTen.shape ∧
    (∀ d : Nat, 0 < d →
      demoBadNewTen.shape ≠ demoLoadTen.shape.dropLast ++ [demoLoadTen.lastDim + d]) ∧
    ∃ msg, (loadQueryData demoEnvMismatch true false false true).2 = Except.error msg :=
  ⟨by decide, by decide, by decide,
   fun d _ h => by
     have h2 : ([2, 1] : List Nat) = [2, 2 + d] := h
     simp at h2
     omega,
   c2_shape_mismatch_fatal demoLoadTen demoBadNewTen (by decide) (by decide) (by decide)
     (fun d _ h => by
       have h2 : ([2, 1] : List Nat) = [2, 2 + d] := h
       simp at h2
       omega)
     demoEnvMismatch "w" true false false true rfl rfl⟩

/-- C3: a saved directory whose `attr.pkl` lacks `init_params_` makes
`load_query_data` raise before any weight-tensor I/O: the result is an
error and the emitted event trace contains no `torch.load` of
`model_params.pt`. -/
theorem c3_missing_init_params_fatal (env : LoadEnv) (u fd fb fe : Bool)
    (h : env.attrDict.initParamsPresent = false) :
    (∃ msg, (loadQueryData env u fd fb fe).2 = Except.error msg) ∧
      Ev.torchLoadModelParams ∉ (loadQueryData env u fd fb fe).1 := by
  simp only [loadQueryData]
  rw [if_pos h]
  exact ⟨⟨_, rfl⟩, by decide⟩

/-- An environment whose saved attribute dictionary lacks
`init_params_`. -/
def demoEnvNoInit : LoadEnv :=
  { attrDict := ⟨demoSetup, false, true⟩
    adataCategories := demoObs
    savedStateDict := [("w", demoLoadTen)]
    mkModel := fun _ => ⟨[("w", demoLoadTen)], [], []⟩
    cudaAvailable := true }

/-- Instantiation of `c3_missing_init_params_fatal` on concrete data. -/
theorem c3_missing_init_params_fatal_witness :
    demoEnvNoInit.attrDict.initParamsPresent = false ∧
    ((∃ msg, (loadQueryData demoEnvNoInit true false false true).2 = Except.error msg) ∧
      Ev.torchLoadModelParams ∉ (loadQueryData demoEnvNoInit true false false true).1) :=
  ⟨rfl, c3_missing_init_params_fatal demoEnvNoInit true false false true rfl⟩

/-- C8: when CUDA is unavailable, requesting `use_cuda=True` behaves
exactly like not requesting it — the call does not fail on account of
the device — and any returned model records `use_cuda = False` with its
weights on the CPU. -/
theorem c8_cuda_fallback (env : LoadEnv) (fd fb fe : Bool)
    (h : env.cudaAvailable = false) :
    loadQueryData env true fd fb fe = loadQueryData env false fd fb fe ∧
    ∀ m, (loadQueryData env true fd fb fe).2 = Except.ok m →
      m.useCuda = false ∧ m.deviceCuda = false := by
  constructor
  · simp only [loadQueryData, h, Bool.and_false]
  · intro m hm
    simp only [loadQueryData, h, Bool.and_false] at hm
    split at hm
    · simp at hm
    · split at hm
      · simp at hm
      · split at hm
        · obtain rfl := Except.ok.inj hm
          exact ⟨rfl, rfl⟩
        · simp at hm

/-- An environment for a clean round trip: same categories, matching
tensor shapes, CUDA unavailable. -/
def demoEnvOk : LoadEnv :=
  { attrDict := ⟨demoSetup, true, true⟩
    adataCategories := fun _ => ["a", "b"]
    savedStateDict := [("w", demoLoadTen)]
    mkModel := fun _ =>
      ⟨[("w", ⟨[2, 2], [[0, 0], [0, 0]]⟩)],
       [("z_encoder.fc_layers.0", SMod.dropout 1)],
       [("z_encoder.fc_layers.0.weight", false)]⟩
    cudaAvailable := false }

/-- Instantiation of `c8_cuda_fallback` on concrete data (on which the
call indeed returns a model, so the conclusion is not vacuous). -/
theorem c8_cuda_fallback_witness :
    demoEnvOk.cudaAvailable = false ∧
    (∃ m, (loadQueryData demoEnvOk true false false true).2 = Except.ok m) ∧
    (loadQueryData demoEnvOk true false false true
        = loadQueryData demoEnvOk false false false true ∧
      ∀ m, (loadQueryData demoEnvOk true false false true).2 = Except.ok m →
        m.useCuda = false ∧ m.deviceCuda = false) :=
  ⟨rfl, ⟨_, rfl⟩, c8_cuda_fallback demoEnvOk false false true rfl⟩

/-- C10: every model `load_query_data` returns has `is_trained_ = False`
and its module in evaluation mode, and the entire result is independent
of the trained/untrained flag stored in the loaded descriptor (which is
restored by the `setattr` loop and then overwritten). -/
theorem c10_untrained_eval (env : LoadEnv) (u fd fb fe : Bool) (b : Bool) :
    (∀ m, (loadQueryData env u fd fb fe).2 = Except.ok m →
      m.isTrained = false ∧ m.evalMode = true) ∧
    loadQueryData { env with attrDict := { env.attrDict with isTrainedSaved := b } }
        u fd fb fe
      = loadQueryData env u fd fb fe := by
  constructor
  · intro m hm
    simp only [loadQueryData] at hm
    split at hm
    · simp at hm
    · split at hm
      · simp at hm
      · split at hm
        · obtain rfl := Except.ok.inj hm
          exact ⟨rfl, rfl⟩
        · simp at hm
  · rfl

/-- Instantiation of `c10_untrained_eval` on concrete data (on which
the call indeed returns a model). -/
theorem c10_untrained_eval_witness :
    (∃ m, (loadQueryData demoEnvOk true false false true).2 = Except.ok m) ∧
    ((∀ m, (loadQueryData demoEnvOk true false false true).2 = Except.ok m →
        m.isTrained = false ∧ m.evalMode = true) ∧
      loadQueryData
          { demoEnvOk with attrDict := { demoEnvOk.attrDict with isTrainedSaved := false } }
          true false false true
        = loadQueryData demoEnvOk true false false true) :=
  ⟨⟨_, rfl⟩, c10_untrained_eval demoEnvOk true false false true false⟩

/-! ## Freeze-policy coverage, determinism and idempotence -/

/-- C6: freeze-policy coverage and determinism.  The parameter pass of
`_set_params_online_update` reaches exactly one `requires_grad` decision
for every parameter name — the output assigns one boolean per input
name, determined by the name (and configuration) alone — and two runs
over the same parameter names with the same configuration produce
identical decisions, whatever the modules or the parameters' previous
`requires_grad` values were. -/
theorem c6_freeze_policy_coverage (fl : Flags) (mods mods' : List (String × SMod))
    (params params' : List (String × Bool))
    (hnames : params.map Prod.fst = params'.map Prod.fst) :
    ((setParamsOnlineUpdate fl mods params).2.map Prod.fst = params.map Prod.fst) ∧
    (∀ p ∈ (setParamsOnlineUpdate fl mods params).2, p.2 = requiresGradKey p.1) ∧
    (setParamsOnlineUpdate fl mods params).2 = (setParamsOnlineUpdate fl mods' params').2 := by
  refine ⟨?_, ?_, ?_⟩
  · show (params.map (fun kp => (kp.1, requiresGradKey kp.1))).map Prod.fst
        = params.map Prod.fst
    rw [List.map_map]
    rfl
  · intro p hp
    simp only [setParamsOnlineUpdate, List.mem_map] at hp
    obtain ⟨kp, -, rfl⟩ := hp
    rfl
  · show params.map (fun kp => (kp.1, requiresGradKey kp.1))
        = params'.map (fun kp => (kp.1, requiresGradKey kp.1))
    have e : ∀ ps : List (String × Bool),
        ps.map (fun kp => (kp.1, requiresGradKey kp.1))
          = (ps.map Prod.fst).map (fun n => (n, requiresGradKey n)) := by
      intro ps
      rw [List.map_map]
      rfl
    rw [e, e, hnames]

/-- Concrete module list for freeze-policy instantiations. -/
def demoMods : List (String × SMod) :=
  [("z_encoder.fc_layers.0", SMod.dropout 1),
   ("decoder.batch_norm", SMod.batchNorm1d true true),
   ("z_encoder", SMod.fcLayers false)]

/-- Concrete parameter list. -/
def demoParams : List (String × Bool) :=
  [("z_encoder.fc_layers.0.weight", false), ("px_r", true)]

/-- Same parameter names as `demoParams`, different previous
`requires_grad` values. -/
def demoParamsAlt : List (String × Bool) :=
  [("z_encoder.fc_layers.0.weight", true), ("px_r", false)]

/-- Instantiation of `c6_freeze_policy_coverage` on concrete data. -/
theorem c6_freeze_policy_coverage_witness :
    demoParams.map Prod.fst = demoParamsAlt.map Prod.fst ∧
    (((setParamsOnlineUpdate ⟨false, false, true⟩ demoMods demoParams).2.map Prod.fst
        = demoParams.map Prod.fst) ∧
     (∀ p ∈ (setParamsOnlineUpdate ⟨false, false, true⟩ demoMods demoParams).2,
        p.2 = requiresGradKey p.1) ∧
     (setParamsOnlineUpdate ⟨false, false, true⟩ demoMods demoParams).2
        = (setParamsOnlineUpdate ⟨false, false, true⟩ [] demoParamsAlt).2) :=
  ⟨by decide,
   c6_freeze_policy_coverage ⟨false, false, true⟩ demoMods [] demoParams demoParamsAlt
     (by decide)⟩

theorem updateModule_idem (fl : Flags) (key : String) (m : SMod) :
    updateModule fl key (updateModule fl key m) = updateModule fl key m := by
  by_cases h : rootName key ∈ modNoHooksYesGrad
  · simp [updateModule, h]
  · cases m with
    | dropout p =>
      by_cases hfd : fl.freezeDropout <;> simp [updateModule, h, hfd]
    | batchNorm1d a t =>
      by_cases hfb : fl.freezeBatchnorm <;> simp [updateModule, h, hfb]
    | fcLayers b => simp [updateModule, h]
    | plain => simp [updateModule, h]

/-- C7: `_set_params_online_update` is idempotent for fixed flag values:
running it a second time changes neither the modules nor the parameters.
In particular a dropout rate forced to zero under `freeze_dropout` stays
zero, and batch-normalization settings disabled under `freeze_batchnorm`
stay disabled; the two final conjuncts also exhibit the toggles' effect
on any non-skipped dropout and batchnorm module. -/
theorem c7_freeze_toggles_idempotent (fl : Flags) (mods : List (String × SMod))
    (params : List (String × Bool)) :
    setParamsOnlineUpdate fl (setParamsOnlineUpdate fl mods params).1
        (setParamsOnlineUpdate fl mods params).2
      = setParamsOnlineUpdate fl mods params ∧
    (∀ (key : String) (p : ℚ), rootName key ∉ modNoHooksYesGrad →
      fl.freezeDropout = true → updateModule fl key (SMod.dropout p) = SMod.dropout 0) ∧
    (∀ (key : String) (a t : Bool), rootName key ∉ modNoHooksYesGrad →
      fl.freezeBatchnorm = true →
      updateModule fl key (SMod.batchNorm1d a t) = SMod.batchNorm1d false false) := by
  refine ⟨?_, ?_, ?_⟩
  · show (((mods.map (fun km => (km.1, updateModule fl km.1 km.2))).map
        (fun km => (km.1, updateModule fl km.1 km.2))),
      ((params.map (fun kp => (kp.1, requiresGradKey kp.1))).map
        (fun kp => (kp.1, requiresGradKey kp.1))))
      = (mods.map (fun km => (km.1, updateModule fl km.1 km.2)),
         params.map (fun kp => (kp.1, requiresGradKey kp.1)))
    refine Prod.ext ?_ ?_
    · show (mods.map _).map _ = mods.map _
      rw [List.map_map]
      apply List.map_congr_left
      intro km _
      show (km.1, updateModule fl km.1 (updateModule fl km.1 km.2))
          = (km.1, updateModule fl km.1 km.2)
      rw [updateModule_idem]
    · show (params.map _).map _ = params.map _
      rw [List.map_map]
      apply List.map_congr_left
      intro kp _
      rfl
  · intro key p h hfd
    simp [updateModule, h, hfd]
  · intro key a t h hfb
    simp [updateModule, h, hfb]

/-- Instantiation of the toggle conjuncts of
`c7_freeze_toggles_idempotent` (the idempotence conjunct is
hypothesis-free). -/
theorem c7_freeze_toggles_idempotent_witness :
    (rootName "z_encoder.fc_layers.1.dropout" ∉ modNoHooksYesGrad) ∧
    (Flags.mk true true true).freezeDropout = true ∧
    (Flags.mk true true true).freezeBatchnorm = true ∧
    (setParamsOnlineUpdate ⟨true, true, true⟩
        (setParamsOnlineUpdate ⟨true, true, true⟩ demoMods demoParams).1
        (setParamsOnlineUpdate ⟨true, true, true⟩ demoMods demoParams).2
      = setParamsOnlineUpdate ⟨true, true, true⟩ demoMods demoParams) ∧
    updateModule ⟨true, true, true⟩ "z_encoder.fc_layers.1.dropout" (SMod.dropout (1 : ℚ))
      = SMod.dropout 0 ∧
    updateModule ⟨true, true, true⟩ "z_encoder.fc_layers.1.dropout"
        (SMod.batchNorm1d true true)
      = SMod.batchNorm1d false false :=
  ⟨by decide, rfl, rfl,
   (c7_freeze_toggles_idempotent ⟨true, true, true⟩ demoMods demoParams).1,
   (c7_freeze_toggles_idempotent ⟨true, true, true⟩ demoMods demoParams).2.1
     "z_encoder.fc_layers.1.dropout" 1 (by decide) rfl,
   (c7_freeze_toggles_idempotent ⟨true, true, true⟩ demoMods demoParams).2.2
     "z_encoder.fc_layers.1.dropout" true true (by decide) rfl⟩

/-! ## Count-data validation -/

/-- A 2-by-6 dense matrix: its 12 entries are all nonnegative integers
except the twelfth (flat position 11, beyond the first 10 entries). -/
def demoBadCounts : NDData :=
  .twoD [[1, 1, 1, 1, 1, 1], [1, 1, 1, 1, 1, -1]]

/-- C9 counterexample: `_check_nonnegative_integers` does not examine
only the first 10 stored entries of a 2-D array.  On `demoBadCounts`
every one of the first 10 flat entries is a nonnegative integer — so a
first-10-entries check would report valid count data — yet the function
returns `False`, because `data[:10]` selects the first 10 *rows* and the
negative twelfth entry lies in the second row. -/
theorem c9_counterexample :
    (((ndFlat demoBadCounts).take 10).all (fun d => !(d < 0) && d.den == 1)) = true ∧
    checkNonnegativeIntegers demoBadCounts = false := by
  constructor <;> decide

/-- C9 (amended): `_check_nonnegative_integers` examines the first at
most 10 elements along the leading axis of the extracted array — the
first 10 entries of a 1-D array or of a sparse matrix's stored nonzero
values, but all entries of the first 10 rows of a 2-D array — and
returns `True` iff every examined value is a nonnegative whole
number. -/
theorem c9_count_check_leading_axis (d : NDData) :
    checkNonnegativeIntegers d = true ↔
      match d with
      | .oneD xs => ∀ x ∈ xs.take 10, 0 ≤ x ∧ x.den = 1
      | .twoD rows => ∀ x ∈ (rows.take 10).flatten, 0 ≤ x ∧ x.den = 1 := by
  cases d with
  | oneD xs =>
    simp only [checkNonnegativeIntegers, checkIsCounts, ndTake10, ndFlat,
      List.all_eq_true, Bool.and_eq_true, Bool.not_eq_true', decide_eq_false_iff_not,
      not_lt, beq_iff_eq]
  | twoD rows =>
    simp only [checkNonnegativeIntegers, checkIsCounts, ndTake10, ndFlat,
      List.all_eq_true, Bool.and_eq_true, Bool.not_eq_true', decide_eq_false_iff_not,
      not_lt, beq_iff_eq]

/-! ## Round trip -/

theorem transferAnndataSetup_noop (setup : SetupDict) (obs : String → List String)
    (h : ∀ fc ∈ setup, ∀ c ∈ obs fc.1, c ∈ fc.2) :
    transferAnndataSetup setup obs = setup := by
  unfold transferAnndataSetup
  conv_rhs => rw [← List.map_id setup]
  apply List.map_congr_left
  intro fc hfc
  rw [extendCategories_eq_of_subset _ _ (h fc hfc)]
  rfl

theorem lookup_map_value {α : Type} (l : List (String × Tensor)) (k : String)
    (f : Tensor → α) :
    List.lookup k (l.map (fun kt => (kt.1, f kt.2))) = (List.lookup k l).map f := by
  induction l with
  | nil => rfl
  | cons a l ih =>
    obtain ⟨ka, ta⟩ := a
    simp only [List.map_cons, List.lookup]
    cases h : k == ka <;> simp [ih]

theorem lookup_eq_of_mem_nodup (l : List (String × Tensor)) (k : String) (t : Tensor)
    (hnd : (l.map Prod.fst).Nodup) (h : (k, t) ∈ l) : List.lookup k l = some t := by
  induction l with
  | nil => cases h
  | cons a l ih =>
    obtain ⟨ka, ta⟩ := a
    simp only [List.map_cons, List.nodup_cons] at hnd
    rcases List.mem_cons.mp h with he | hm
    · obtain ⟨rfl, rfl⟩ := Prod.mk.injEq .. |>.mp he
      simp [List.lookup]
    · have hk : k ≠ ka := by
        rintro rfl
        exact hnd.1 (List.mem_map_of_mem Prod.fst hm)
      have hbe : (k == ka) = false := beq_eq_false_iff_ne.mpr hk
      simp only [List.lookup, hbe]
      exact ih hnd.2 hm

theorem reconcileStateDict_skip (rest fresh' : List (String × Tensor)) (k : String)
    (nt : Tensor) (hk : k ∉ rest.map Prod.fst) :
    reconcileStateDict rest ((k, nt) :: fresh') = reconcileStateDict rest fresh' := by
  induction rest with
  | nil => rfl
  | cons a rest ih =>
    obtain ⟨ka, ta⟩ := a
    simp only [List.map_cons, List.mem_cons, not_or] at hk
    have hne : (ka == k) = false := by
      simp only [beq_eq_false_iff_ne, ne_eq]
      exact fun he => hk.1 he.symm
    rw [reconcileStateDict, reconcileStateDict]
    simp only [List.lookup, hne, ih (by simpa using hk.2)]

theorem reconcile_roundtrip (saved fresh : List (String × Tensor))
    (hshapes : fresh.map (fun kt => (kt.1, kt.2.shape))
        = saved.map (fun kt => (kt.1, kt.2.shape)))
    (hnodup : (saved.map Prod.fst).Nodup) :
    reconcileStateDict saved fresh = some saved := by
  induction saved generalizing fresh with
  | nil => rfl
  | cons a saved ih =>
    obtain ⟨k, t⟩ := a
    cases fresh with
    | nil => simp at hshapes
    | cons b fresh' =>
      obtain ⟨k2, nt⟩ := b
      simp only [List.map_cons, List.cons.injEq, Prod.mk.injEq] at hshapes
      obtain ⟨⟨hk2, hts⟩, htl⟩ := hshapes
      subst k2
      simp only [List.map_cons, List.nodup_cons] at hnodup
      have hlook : List.lookup k ((k, nt) :: fresh') = some nt := by
        simp [List.lookup]
      have hrt : reconcileTensor t nt = some t := by
        rw [reconcileTensor, if_pos hts.symm]
      rw [reconcileStateDict, hlook]
      show (match reconcileTensor t nt with
          | none => none
          | some ft =>
            (reconcileStateDict saved ((k, nt) :: fresh')).map (fun r => (k, ft) :: r))
        = some ((k, t) :: saved)
      rw [hrt, reconcileStateDict_skip saved fresh' k nt hnodup.1, ih fresh' htl hnodup.2]
      rfl

theorem strictLoadCheck_roundtrip (saved fresh : List (String × Tensor))
    (hshapes : fresh.map (fun kt => (kt.1, kt.2.shape))
        = saved.map (fun kt => (kt.1, kt.2.shape)))
    (hnodup : (saved.map Prod.fst).Nodup) :
    strictLoadCheck fresh saved = true := by
  have hkeys : fresh.map Prod.fst = saved.map Prod.fst := by
    have h := congrArg (List.map Prod.fst) hshapes
    simpa [List.map_map, Function.comp] using h
  have hndF : (fresh.map Prod.fst).Nodup := by rw [hkeys]; exact hnodup
  have hcorr : ∀ k : String,
      (List.lookup k fresh).map Tensor.shape = (List.lookup k saved).map Tensor.shape := by
    intro k
    rw [← lookup_map_value fresh k Tensor.shape, ← lookup_map_value saved k Tensor.shape,
      hshapes]
  rw [strictLoadCheck, Bool.and_eq_true, List.all_eq_true, List.all_eq_true]
  constructor
  · intro kt hmem
    obtain ⟨k, nt⟩ := kt
    have hlf : List.lookup k fresh = some nt := lookup_eq_of_mem_nodup fresh k nt hndF hmem
    have h := hcorr k
    rw [hlf] at h
    cases hls : List.lookup k saved with
    | none => rw [hls] at h; simp at h
    | some t' =>
      rw [hls] at h
      simp only [Option.map_some'] at h
      have hsh : t'.shape = nt.shape := (Option.some.inj h).symm
      simp only [hls]
      show (t'.shape == nt.shape) = true
      exact beq_iff_eq.mpr hsh
  · intro kt hmem
    obtain ⟨k, t⟩ := kt
    have hls : List.lookup k saved = some t := lookup_eq_of_mem_nodup saved k t hnodup hmem
    have h := hcorr k
    rw [hls] at h
    cases hlf : List.lookup k fresh with
    | none => rw [hlf] at h; simp at h
    | some nt => simp [hlf]

/-- C4: round trip.  Reloading against the same dataset — the query
data's categories all already occur in the saved descriptor, and every
saved tensor's shape equals the fresh model's — returns a model whose
state dict is bit-identical to the saved one and whose setup descriptor
equals the saved descriptor. -/
theorem c4_roundtrip (env : LoadEnv) (u fd fb fe : Bool)
    (hinit : env.attrDict.initParamsPresent = true)
    (hnocat : ∀ fc ∈ env.attrDict.scviSetupDict, ∀ c ∈ env.adataCategories fc.1, c ∈ fc.2)
    (hshapes : (env.mkModel env.attrDict.scviSetupDict).stateDict.map
          (fun kt => (kt.1, kt.2.shape))
        = env.savedStateDict.map (fun kt => (kt.1, kt.2.shape)))
    (hnodup : (env.savedStateDict.map Prod.fst).Nodup) :
    ∃ m, (loadQueryData env u fd fb fe).2 = Except.ok m ∧
      m.stateDict = env.savedStateDict ∧
      m.setupDict = env.attrDict.scviSetupDict := by
  have hext : transferAnndataSetup env.attrDict.scviSetupDict env.adataCategories
      = env.attrDict.scviSetupDict := transferAnndataSetup_noop _ _ hnocat
  have hrec := reconcile_roundtrip env.savedStateDict
    (env.mkModel env.attrDict.scviSetupDict).stateDict hshapes hnodup
  have hstrict := strictLoadCheck_roundtrip env.savedStateDict
    (env.mkModel env.attrDict.scviSetupDict).stateDict hshapes hnodup
  simp only [loadQueryData, hext, hinit, hrec, hstrict]
  simp only [Bool.true_eq_false, if_false, if_true]
  exact ⟨_, rfl, rfl, rfl⟩

/-- Instantiation of `c4_roundtrip` on concrete data. -/
theorem c4_roundtrip_witness :
    demoEnvOk.attrDict.initParamsPresent = true ∧
    (∀ fc ∈ demoEnvOk.attrDict.scviSetupDict,
      ∀ c ∈ demoEnvOk.adataCategories fc.1, c ∈ fc.2) ∧
    ((demoEnvOk.mkModel demoEnvOk.attrDict.scviSetupDict).stateDict.map
          (fun kt => (kt.1, kt.2.shape))
        = demoEnvOk.savedStateDict.map (fun kt => (kt.1, kt.2.shape))) ∧
    (demoEnvOk.savedStateDict.map Prod.fst).Nodup ∧
    ∃ m, (loadQueryData demoEnvOk true false false true).2 = Except.ok m ∧
      m.stateDict = demoEnvOk.savedStateDict ∧
      m.setupDict = demoEnvOk.attrDict.scviSetupDict :=
  ⟨rfl, by decide, by decide, by decide,
   c4_roundtrip demoEnvOk true false false true rfl (by decide) (by decide) (by decide)⟩

end Scvi
